import Mathlib

/-!
# SurveyEase backend — verification of the survey conversation engine

Shallow embedding of the `se-backend` Python sources:

* `graph/survey_graph.py` — the compiled question/answer/end graph, its node
  functions (`_make_generate_question`, `_get_user_answer`, `_end_survey`) and
  routing functions (`_should_continue`, `_should_continue_for_linear`,
  `_route_condition_step`, `_get_next_step`,
  `_assemble_conversation_context`).
* `api/survey.py` — the `/chat/continue` dispatcher and the initial session
  state built by `/chat/stream`.
* `api/template.py` — `replace_variables` (the `\x7b\x7bkey\x7d\x7d`
  substitution) and the graph cache.
* `utils/redis_checkpointer.py` — `clear_thread_state` and
  `_clean_for_serialization` / `_is_unserializable`.

The LLM is treated as an oracle; fallible Python code is embedded with
`Option`/`Except`.  Python values reaching the serializer are embedded as the
inductive `PyVal`.
-/

namespace SurveyEase

/-! ## Messages and steps -/

/-- A LangChain message: `SystemMessage`, `AIMessage` or `HumanMessage`,
each carrying its textual content. -/
inductive Msg where
  | system (content : String)
  | ai (content : String)
  | human (content : String)
deriving DecidableEq, Repr

/-- One survey step, as assembled in `api/survey.py` (`step_data`): the
fields `content`, `type`, `condition`, `branches` of the step dict. -/
structure Step where
  content : String
  type : String
  condition : String
  branches : List String
deriving DecidableEq, Repr

/-- The value held by the `current_step` field of the session state.  The
`TypedDict` declares `int`, but `api/survey.py` seeds it with the string
`"0_q"`; afterwards the node functions write integers.  Both runtime shapes
are embedded. -/
inductive Cursor where
  | str (s : String)
  | int (i : Nat)
deriving DecidableEq, Repr

/-- Structure `SurveyGraphState` from `graph/survey_graph.py` (the
`background_knowledge` field is carried but never read by any node). -/
structure GState where
  messages : List Msg
  steps : List Step
  systemPrompt : String
  backgroundKnowledge : String
  maxTurns : Nat
  currentStep : Cursor
  currentStepFinish : Bool
  currentStepMessages : List Msg
  threadId : String
  endMessage : String
deriving DecidableEq, Repr

/-- Python's substring test `needle in hay` on strings, as a Bool. -/
def strContainsB (hay needle : String) : Bool :=
  decide (List.IsInfix needle.data hay.data)

/-- Python `.upper()` (the engine only compares ASCII markers, for which
`Char.toUpper` is the case mapping). -/
def pyUpper (s : String) : String :=
  String.mk (s.data.map Char.toUpper)

/-- Python `.lower()`. -/
def pyLower (s : String) : String :=
  String.mk (s.data.map Char.toLower)

/-- Python `.strip()`: remove surrounding whitespace. -/
def pyStrip (s : String) : String :=
  String.mk (((s.data.dropWhile Char.isWhitespace).reverse.dropWhile
    Char.isWhitespace).reverse)

/-- Python `.startswith(pre)`. -/
def pyStartsWith (s pre : String) : Bool :=
  decide (List.IsPrefix pre.data s.data)

/-- Python `state.get("current_step") != step_index` where `step_index` is an
`int`: a string cursor is never equal to an `int`. -/
def cursorEqNat : Cursor → Nat → Bool
  | Cursor.int i, j => i == j
  | Cursor.str _, _ => false

/-- Python `str(...)` applied to the cursor value. -/
def cursorToString : Cursor → String
  | Cursor.int i => toString i
  | Cursor.str s => s

/-! ## Question node (`_make_generate_question`)

The closure bound to node `i_q`.  `resp` is the text produced by the one
`fast_llm.invoke(messages)` call the node performs.  The Python code mutates
the `messages` list in place when injecting the step content, so the injected
message is visible on every exit path. -/

/-- Line `current_step_messages = [] if state.get("current_step") !=
step_index else state.get("current_step_messages", [])` — reset on a step
jump. -/
def gqResetCsm (stepIndex : Nat) (s : GState) : List Msg :=
  if cursorEqNat s.currentStep stepIndex then s.currentStepMessages else []

/-- Expression `steps[current_step]` if in range else `\x7b\x7d`, then `.get("content",
"")`. -/
def gqStepContent (stepIndex : Nat) (s : GState) : String :=
  match s.steps.get? stepIndex with
  | some st => st.content
  | none => ""

/-- The per-step transcript at the moment of the finish check: the step
content has been injected when the transcript was empty. -/
def gqCsm (stepIndex : Nat) (s : GState) : List Msg :=
  if (gqResetCsm stepIndex s).length == 0 then
    gqResetCsm stepIndex s ++ [Msg.ai (gqStepContent stepIndex s)]
  else gqResetCsm stepIndex s

/-- The full transcript after the possible injection (the Python code
appends to the `messages` list in place). -/
def gqMessages (stepIndex : Nat) (s : GState) : List Msg :=
  if (gqResetCsm stepIndex s).length == 0 then
    s.messages ++ [Msg.ai (gqStepContent stepIndex s)]
  else s.messages

/-- Line `is_finish = "FINISH" in response_content.upper() or
len(current_step_messages) >= max_turns * 2 + 1`. -/
def gqIsFinish (stepIndex : Nat) (resp : String) (s : GState) : Bool :=
  strContainsB (pyUpper resp) "FINISH" ||
    decide ((gqCsm stepIndex s).length ≥ s.maxTurns * 2 + 1)

def generateQuestion (stepIndex : Nat) (resp : String) (s : GState) : GState :=
  if gqIsFinish stepIndex resp s then
    { s with
        messages := gqMessages stepIndex s
        currentStep := Cursor.int stepIndex
        currentStepFinish := true
        currentStepMessages := [] }
  else
    { s with
        messages := gqMessages stepIndex s ++ [Msg.ai resp]
        currentStep := Cursor.int stepIndex
        currentStepFinish := false
        currentStepMessages := gqCsm stepIndex s ++ [Msg.ai resp] }

/-! ## Answer node (`_get_user_answer`)

When the step just finished (empty per-step transcript and the finish flag
set) the node returns at once with `current_step + 1` — Python integer
addition, which would raise `TypeError` on the seeded string cursor, hence
`Option`.  Otherwise it suspends via `interrupt` and, resumed with the user
reply `input`, appends it as a `HumanMessage`. -/

def getUserAnswer (input : String) (s : GState) : Option GState :=
  if s.currentStepMessages.length == 0 && s.currentStepFinish then
    match s.currentStep with
    | Cursor.int i => some { s with currentStep := Cursor.int (i + 1) }
    | Cursor.str _ => none
  else
    some { s with
      messages := s.messages ++ [Msg.human input]
      currentStepMessages :=
        if s.currentStepFinish then s.currentStepMessages
        else s.currentStepMessages ++ [Msg.human input] }

/-! ## Condition evaluation and routing -/

/-- Method `_assemble_conversation_context`. -/
def assembleConversationContext (msgs : List Msg) : String :=
  let parts := msgs.map fun m =>
    match m with
    | Msg.human c => "用户回复：" ++ c
    | Msg.ai c => "AI提问：" ++ c
    | Msg.system c => c
  if parts.isEmpty then "无对话记录" else String.intercalate "\n" parts

/-- The fixed Y/N prompt built by `_get_next_step`. -/
def conditionPrompt (cond ctx : String) : String :=
  "根据对话记录分析是否满足判断条件，若满足则回复\x27Y\x27，否则回复\x27N\x27，只回答“Y”or“N”，不要其他内容。\n判断条件：" ++ cond ++ "\n对话记录：" ++ ctx

/-- Digit run of a Python decimal integer literal: digits with single
underscores allowed between digits (`int("1_2") = 12`; leading, trailing or
doubled underscores are rejected).  Returns the digits with the underscores
removed when well-formed. -/
def pyDigits? : List Char → Option (List Char)
  | [] => none
  | [c] => if c.isDigit then some [c] else none
  | c :: '_' :: rest =>
      if c.isDigit then
        match pyDigits? rest with
        | some ds => some (c :: ds)
        | none => none
      else none
  | c :: d :: rest =>
      if c.isDigit then
        match pyDigits? (d :: rest) with
        | some ds => some (c :: ds)
        | none => none
      else none

/-- Python `int(text)` on a branch string: optional surrounding whitespace,
optional sign, then a nonempty digit run with optional underscore digit
grouping.  `none` embeds `ValueError`. -/
def pyInt? (txt : String) : Option Int :=
  let t := (pyStrip txt).data
  let (digits?, neg) :=
    match t with
    | '-' :: rest => (pyDigits? rest, true)
    | '+' :: rest => (pyDigits? rest, false)
    | rest => (pyDigits? rest, false)
  match digits? with
  | some ds =>
      let n : Nat := ds.foldl (fun acc c => acc * 10 + (c.toNat - 48)) 0
      some (if neg then -(n : Int) else (n : Int))
  | none => none

/-- The verdict parsing of `_get_next_step`:
`result = response.content.strip().lower()` and the branch is
`branches[0]` iff `"y" in result or "yes" in result or "true" in result`. -/
def verdictIsYes (resp : String) : Bool :=
  let result := pyLower (pyStrip resp)
  strContainsB result "y" || strContainsB result "yes" || strContainsB result "true"

/-- Result of `_get_next_step`: the string `"END"` or a step index. -/
inductive NextStep where
  | END
  | idx (i : Int)
deriving DecidableEq, Repr

/-- Method `_get_next_step`.  The oracle maps the prompt it is invoked on to the
response text (or an exception).  Any Python exception (`IndexError` on
`steps`/`branches`, `TypeError` on a string cursor, an oracle failure) is an
`Except.error`. -/
def getNextStep (oracle : String → Except Unit String) (s : GState) :
    Except Unit NextStep :=
  match s.currentStep with
  | Cursor.str _ => Except.error ()     -- list index by str: TypeError
  | Cursor.int i =>
    match s.steps.get? i with
    | none => Except.error ()           -- IndexError on steps
    | some st =>
      match oracle (conditionPrompt st.condition
          (assembleConversationContext s.currentStepMessages)) with
      | Except.error e => Except.error e
      | Except.ok resp =>
        match (if verdictIsYes resp then st.branches.get? 0
               else st.branches.get? 1) with
        | none => Except.error ()       -- IndexError on branches
        | some selected =>
          if pyUpper selected == "END" then Except.ok NextStep.END
          else
            match pyInt? selected with
            | some k => Except.ok (NextStep.idx (k - 1))
            | none => Except.ok NextStep.END
              -- except (ValueError, TypeError): return "END"

/-- Method `_route_condition_step`: every exception from `_get_next_step` is caught
and routed to `end_survey`. -/
def routeConditionStep (oracle : String → Except Unit String) (s : GState) : String :=
  match getNextStep oracle s with
  | Except.error _ => "end_survey"
  | Except.ok NextStep.END => "end_survey"
  | Except.ok (NextStep.idx k) =>
      if k < 0 || k ≥ (s.steps.length : Int) then "end_survey"
      else toString k ++ "_q"

/-- Method `_should_continue_for_linear`.  In the not-finished branch Python returns
`str(current_step) + "_q"` for either cursor shape; in the finished branch
`current_step + 1` requires an integer (`none` embeds the `TypeError`). -/
def shouldContinueForLinear (s : GState) : Option String :=
  if !s.currentStepFinish then
    some (cursorToString s.currentStep ++ "_q")
  else
    match s.currentStep with
    | Cursor.int i =>
        some (if i + 1 < s.steps.length then toString (i + 1) ++ "_q" else "end_survey")
    | Cursor.str _ => none

/-- Method `_should_continue`: dispatch on `steps[current_step]["type"]`.  The
indexing itself is outside any `try`, so a bad cursor is a raised exception
(`none`). -/
def shouldContinue (oracle : String → Except Unit String) (s : GState) : Option String :=
  match s.currentStep with
  | Cursor.str _ => none
  | Cursor.int i =>
      match s.steps.get? i with
      | none => none
      | some st =>
          if pyLower st.type == "linear" then shouldContinueForLinear s
          else some (routeConditionStep oracle s)

/-- The transition the graph performs at answer node `i_a`: the node runs
(`_get_user_answer`, which advances the cursor to `i + 1` when the step just
finished), and the conditional edge then calls `_should_continue` on the
state *including the node's writes* (the router reads the node's own output,
the pattern the graph relies on).  `none` embeds a raised exception
propagating out of the run. -/
def answerAndRoute (oracle : String → Except Unit String) (input : String)
    (s : GState) : Option (GState × String) :=
  match getUserAnswer input s with
  | none => none
  | some updated =>
      match shouldContinue oracle updated with
      | none => none
      | some target => some (updated, target)

/-! ## Terminal node (`_end_survey`) and checkpoint purging -/

/-- The observable effects of `_end_survey`: the updated state, the chat-log
writes it performs via `ChatLogger.save_chat_log`, and the checkpoint-purge
requests it issues — the function body contains none. -/
structure EndSurveyEffects where
  finalState : GState
  chatLogWrites : List (String × List Msg)
  checkpointPurges : List String
deriving DecidableEq, Repr

/-- Method `_end_survey`: append the end message, save the chat log, set the finish
flag.  No call to any checkpoint-purging routine appears in the body (nor
anywhere else in the repository). -/
def endSurvey (s : GState) : EndSurveyEffects :=
  let messages := s.messages ++ [Msg.ai s.endMessage]
  { finalState := { s with messages := messages, currentStepFinish := true }
    chatLogWrites := [(s.threadId, messages)]
    checkpointPurges := [] }

/-- The three key shapes used by `RedisCheckpointer` for a thread
(`_get_checkpoint_key`, `_get_checkpoint_list_key`, `_get_thread_key`). -/
def isThreadKey (pfx tid key : String) : Bool :=
  key == pfx ++ "list:" ++ tid
    || key == pfx ++ "thread:" ++ tid
    || (pfx ++ "checkpoint:" ++ tid ++ ":").isPrefixOf key

/-- Method `RedisCheckpointer.clear_thread_state` on a store holding `keys`: the
checkpoint keys of the thread are deleted (found both via the index and via
the `SCAN` pattern `checkpoint:{thread_id}:*`), then the list key and the
thread key. -/
def clearThreadState (pfx tid : String) (keys : List String) : List String :=
  keys.filter fun k => !isThreadKey pfx tid k

/-! ## Session dispatcher (`api/survey.py`) -/

/-- Body of `POST /chat/continue`. -/
structure ContinueRequest where
  conversationId : String
  userResponse : String
  templateId : String
deriving DecidableEq, Repr

/-- Outcome of `continue_survey`: either the `KeyError` raised by
`template_graph_cache[template_id + conversation_id]` (the subscript is
outside any `try`), or a resume of the cached graph with the user response. -/
inductive ContinueOutcome where
  | keyError (key : String)
  | resumed (key : String) (resumeValue : String)
deriving DecidableEq, Repr

/-- Endpoint body `continue_survey`.  `cache` is the set of keys present in
`template_graph_cache`; `checkpoints` the set of `thread_id`s that have a
stored checkpoint — the function body never consults it. -/
def continueSurvey (cache : List String) (_checkpoints : List String)
    (req : ContinueRequest) : ContinueOutcome :=
  let key := req.templateId ++ req.conversationId
  if cache.contains key then ContinueOutcome.resumed key req.userResponse
  else ContinueOutcome.keyError key

/-- The initial session state built by `POST /chat/stream`
(`api/survey.py`, `initial_state`): note `current_step` is seeded with the
string `"0_q"` and `current_step_finish` is not seeded at all (embedded as
`false`, the truth value Python gives the missing key). -/
def initialState (steps : List Step) (systemPrompt : String) (maxTurns : Nat)
    (welcome firstMessage conversationId endMessage : String) : GState :=
  { messages := [Msg.system systemPrompt, Msg.ai welcome, Msg.human firstMessage]
    steps := steps
    systemPrompt := systemPrompt
    backgroundKnowledge := ""
    maxTurns := maxTurns
    currentStep := Cursor.str "0_q"
    currentStepFinish := false
    currentStepMessages := []
    threadId := conversationId
    endMessage := endMessage }

/-! ## The serializer cleaner (`utils/redis_checkpointer.py`)

`_clean_for_serialization` deep-walks an arbitrary Python value.  Python
values are embedded as the inductive `PyVal`; asynchronous runtime objects
(the ones `_is_unserializable` recognises) are one constructor, and a generic
object carries its optional `__dict__`, whether `pickle.dumps` succeeds on
it, and its optional `str()` form (`none` embeds a raising `__str__`). -/

/-- The object kinds listed in the `isinstance` test of
`_is_unserializable` / `_clean_for_serialization`. -/
inductive AsyncKind where
  | eventLoop | future | task | coroutine | function | method
  | builtinFunction | generator
deriving DecidableEq, Repr

/-- Python dict keys occurring in checkpoint data. -/
inductive PyKey where
  | kstr (s : String)
  | kint (n : Int)
  | kfloat (lit : String)
  | kbool (b : Bool)
  | kbytes (bs : List Nat)
  | knone
deriving DecidableEq, Repr

/-- Test `isinstance(key, (str, int, float, bool))` — the key filter of the dict
branch. -/
def PyKey.isBasic : PyKey → Bool
  | kstr _ => true
  | kint _ => true
  | kfloat _ => true
  | kbool _ => true
  | kbytes _ => false
  | knone => false

/-- Embedded Python values.  Floats are carried as uninterpreted literals:
the serializer only moves them around. -/
inductive PyVal where
  | pynone
  | pybool (b : Bool)
  | pyint (n : Int)
  | pyfloat (lit : String)
  | pystr (s : String)
  | pybytes (bs : List Nat)
  | pylist (items : List PyVal)
  | pytuple (items : List PyVal)
  | pydict (entries : List (PyKey × PyVal))
  | pyasync (k : AsyncKind)
  | pyobj (attrs : Option (List (String × PyVal))) (picklable : Bool)
      (strForm : Option String)

/-- Python `x is None` (identity with the `None` singleton). -/
def PyVal.isNone : PyVal → Bool
  | pynone => true
  | _ => false

/-- Test `obj is None or isinstance(obj, (str, int, float, bool, bytes))` — the
base case of `_clean_for_serialization` (and the value filter reused in the
dict branch). -/
def PyVal.isPrimitive : PyVal → Bool
  | pynone => true
  | pybool _ => true
  | pyint _ => true
  | pyfloat _ => true
  | pystr _ => true
  | pybytes _ => true
  | _ => false

/-- Method `RedisCheckpointer._is_unserializable`. -/
def isUnserializable : PyVal → Bool
  | PyVal.pyasync _ => true
  | _ => false

mutual

/-- Method `RedisCheckpointer._clean_for_serialization`.  The inner `try`/`except`
arms guarding recursive calls cannot fire in the embedding (the recursion is
total), so only the non-exceptional control flow remains. -/
def cleanVal : PyVal → PyVal
  | PyVal.pynone => PyVal.pynone
  | PyVal.pybool b => PyVal.pybool b
  | PyVal.pyint n => PyVal.pyint n
  | PyVal.pyfloat l => PyVal.pyfloat l
  | PyVal.pystr s => PyVal.pystr s
  | PyVal.pybytes bs => PyVal.pybytes bs
  | PyVal.pydict entries => PyVal.pydict (cleanEntries entries)
  | PyVal.pylist items => PyVal.pylist (cleanItems items)
  | PyVal.pytuple items => PyVal.pytuple (cleanItems items)
  | PyVal.pyasync _ => PyVal.pynone
  | PyVal.pyobj (some attrs) _ _ => PyVal.pydict (cleanAttrs attrs)
  | PyVal.pyobj none picklable strForm =>
      -- no `__dict__`: try `pickle.dumps(obj)` and return the object itself;
      -- on failure fall back to `str(obj)`, and on a second failure to `None`
      if picklable then PyVal.pyobj none picklable strForm
      else
        match strForm with
        | some t => PyVal.pystr t
        | none => PyVal.pynone

/-- The dict branch: keep a key only when it is basic; keep the cleaned
value when it is not `None`, the original `None`, or the original primitive
value, and otherwise drop the entry. -/
def cleanEntries : List (PyKey × PyVal) → List (PyKey × PyVal)
  | [] => []
  | (k, v) :: rest =>
      if k.isBasic then
        let cv := cleanVal v
        if cv.isNone then
          if v.isNone then (k, PyVal.pynone) :: cleanEntries rest
          else if v.isPrimitive then (k, v) :: cleanEntries rest
          else cleanEntries rest
        else (k, cv) :: cleanEntries rest
      else cleanEntries rest

/-- The list/tuple branch: append the cleaned item unless cleaning turned a
non-`None` item into `None`. -/
def cleanItems : List PyVal → List PyVal
  | [] => []
  | v :: rest =>
      let cv := cleanVal v
      if cv.isNone then
        if v.isNone then PyVal.pynone :: cleanItems rest
        else cleanItems rest
      else cv :: cleanItems rest

/-- The `__dict__` projection branch: skip attributes `_is_unserializable`
rejects, clean the rest. -/
def cleanAttrs : List (String × PyVal) → List (PyKey × PyVal)
  | [] => []
  | (k, v) :: rest =>
      if isUnserializable v then cleanAttrs rest
      else (PyKey.kstr k, cleanVal v) :: cleanAttrs rest

end

/-! ## Variable substitution (`api/template.py`)

`replace_variables` performs `re.sub(r"\x7b\x7b([^\x7d]+)\x7d\x7d", repl,
text)` where `repl` looks the captured group up in the binding dict and
keeps `match.group(0)` for unknown keys.  The scanner below replicates
`re.sub` for this pattern: at each position, `\x7b\x7b` then a maximal
nonempty run of non-`\x7d` characters then `\x7d\x7d`; on a match the engine
continues after the match, otherwise it advances one character. -/

/-- Attempt the pattern at the head of `cs`; on success return the captured
group and the remainder after the match. -/
def headMatch? (cs : List Char) : Option (List Char × List Char) :=
  match cs with
  | '\x7b' :: '\x7b' :: tail =>
      match tail.dropWhile (fun c => c ≠ '\x7d') with
      | '\x7d' :: '\x7d' :: rest =>
          if (tail.takeWhile (fun c => c ≠ '\x7d')).isEmpty then none
          else some (tail.takeWhile (fun c => c ≠ '\x7d'), rest)
      | _ => none
  | _ => none

/-- The scanner of `replace_variables`; `lookup` embeds `var_map.get`. -/
def replVars (lookup : String → Option String) (cs : List Char) : List Char :=
  match h : headMatch? cs with
  | some (run, rest) =>
      (match lookup (String.mk run) with
       | some v => v.data
       | none => '\x7b' :: '\x7b' :: (run ++ ['\x7d', '\x7d'])) ++
        replVars lookup rest
  | none =>
      match cs with
      | [] => []
      | c :: rest => c :: replVars lookup rest
termination_by cs.length
decreasing_by
  · unfold headMatch? at h
    split at h
    · rename_i tail
      split at h
      · rename_i rest' hdrop
        split at h
        · cases h
        · simp only [Option.some.injEq, Prod.mk.injEq] at h
          obtain ⟨h1, h2⟩ := h
          have hlen : (List.dropWhile (fun c => decide (c ≠ '\x7d')) tail).length ≤
              tail.length := (List.dropWhile_sublist (p := fun c => decide (c ≠ '\x7d'))
                (l := tail)).length_le
          rw [hdrop] at hlen
          simp only [List.length_cons] at hlen
          subst h2
          simp only [List.length_cons]
          omega
      · cases h
    · cases h
  · simp

/-- Dict `var_map = \x7bvar.key: var.value for var in variables\x7d` — the later
binding wins, i.e. the last matching entry of the list. -/
def varMapLookup (vars : List (String × String)) (k : String) : Option String :=
  (vars.reverse.find? (fun p => p.1 == k)).map Prod.snd

/-- Function `replace_variables(text, variables)`: an empty binding list returns the
text unchanged, otherwise the regex substitution runs. -/
def replaceVariables (text : String) (vars : List (String × String)) : String :=
  if vars.isEmpty then text
  else String.mk (replVars (varMapLookup vars) text.data)

/-- All characters are plain text — neither `\x7b` nor `\x7d`. -/
def braceFreeL (l : List Char) : Bool :=
  l.all fun c => c ≠ '\x7b' && c ≠ '\x7d'

/-- The pattern matches right after an (already consumed) `\x7b\x7b`. -/
def headBadB (tail : List Char) : Bool :=
  (headMatch? ('\x7b' :: '\x7b' :: tail)).isSome

/-! ## Node labels and the set of observable session states -/

/-- A legal node label of the compiled graph: `<i>_q`, `<i>_a` or
`end_survey`. -/
def isNodeLabelStr (s : String) : Bool :=
  s == "end_survey" ||
    ((s.endsWith "_q" || s.endsWith "_a") &&
      (!(s.dropRight 2).isEmpty && (s.dropRight 2).data.all Char.isDigit))

/-- The claim-side reading of the `current_step` cursor: it holds a legal
node label. -/
def cursorIsNodeLabel : Cursor → Bool
  | Cursor.str s => isNodeLabelStr s
  | Cursor.int _ => false

/-- The session states observable after each node execution, plus the
initial state.  This over-approximates the real executor: question node
`i_q` exists for every `i < n` and is the only router target besides
`end_survey` (the conditional-edge map of `_build_graph` contains exactly
the labels `j_q` for `j < n` and `end_survey`), and answer node `i_a` runs
exactly once after its question node `i_q`. -/
inductive Observed (steps : List Step) : GState → Prop where
  | init (systemPrompt : String) (maxTurns : Nat)
      (welcome firstMessage conversationId endMessage : String) :
      Observed steps (initialState steps systemPrompt maxTurns welcome
        firstMessage conversationId endMessage)
  | question (s : GState) (i : Nat) (resp : String) :
      Observed steps s → i < steps.length →
      Observed steps (generateQuestion i resp s)
  | answer (s : GState) (i : Nat) (resp input : String) (s' : GState) :
      Observed steps s → i < steps.length →
      getUserAnswer input (generateQuestion i resp s) = some s' →
      Observed steps s'
  | finished (s : GState) :
      Observed steps s → Observed steps (endSurvey s).finalState

/-! ## Spec-modelled condition-evaluation fallback (§4.5 / §7 of the spec)

The specification claims that on oracle failure the Condition Evaluator
falls back to a substring match; no such code exists in the repository
(`_route_condition_step` catches every exception and returns
`"end_survey"`), so the claimed behaviour is modelled here from the spec's
words for comparison. -/

/-- Modelled from the spec: "the last user reply" — the content of the most
recent `HumanMessage` of the per-step transcript (empty if there is none). -/
def specLastUserReply (msgs : List Msg) : String :=
  match msgs.reverse.find? (fun m => match m with | Msg.human _ => true | _ => false) with
  | some (Msg.human c) => c
  | _ => ""

/-- Modelled from the spec: "fall back to a literal case-insensitive
substring match of the predicate in the last user reply", the verdict then
choosing `branches[0]` (satisfied) or `branches[1]` and being mapped to a
node exactly as a normal condition verdict would be. -/
def specFallbackRoute (s : GState) : String :=
  match s.currentStep with
  | Cursor.str _ => "end_survey"
  | Cursor.int i =>
      match s.steps.get? i with
      | none => "end_survey"
      | some st =>
          let reply := specLastUserReply s.currentStepMessages
          let satisfied := strContainsB (pyLower reply) (pyLower st.condition)
          match (if satisfied then st.branches.get? 0 else st.branches.get? 1) with
          | none => "end_survey"
          | some b =>
              if pyUpper b == "END" then "end_survey"
              else
                match pyInt? b with
                | none => "end_survey"
                | some k =>
                    if k - 1 < 0 || k - 1 ≥ (s.steps.length : Int) then "end_survey"
                    else toString (k - 1) ++ "_q"

/-! # Theorems

Everything below is a theorem; the verified claims are stated over the
definitions above. -/

/-! ### Evaluation equations for the scanner -/

theorem replVars_nil (lookup : String → Option String) : replVars lookup [] = [] := by
  rw [replVars]
  rfl

theorem replVars_match {lookup : String → Option String} {cs run rest : List Char}
    (h : headMatch? cs = some (run, rest)) :
    replVars lookup cs =
      (match lookup (String.mk run) with
       | some v => v.data
       | none => '\x7b' :: '\x7b' :: (run ++ ['\x7d', '\x7d'])) ++
        replVars lookup rest := by
  rw [replVars.eq_def]
  split
  · rename_i run' rest' h'
    rw [h] at h'
    simp only [Option.some.injEq, Prod.mk.injEq] at h'
    obtain ⟨h1, h2⟩ := h'
    rw [h1, h2]
  · rename_i h'
    rw [h] at h'
    cases h'

theorem replVars_nomatch {lookup : String → Option String} {c : Char} {cs : List Char}
    (h : headMatch? (c :: cs) = none) :
    replVars lookup (c :: cs) = c :: replVars lookup cs := by
  rw [replVars.eq_def]
  split
  · rename_i run' rest' h'
    rw [h] at h'
    cases h'
  · rfl

/-! ### Shape analysis of the pattern matcher -/

theorem headMatch?_shape {cs run rest : List Char}
    (h : headMatch? cs = some (run, rest)) :
    cs = '\x7b' :: '\x7b' :: (run ++ '\x7d' :: '\x7d' :: rest) ∧
      run ≠ [] ∧ ∀ c ∈ run, c ≠ '\x7d' := by
  unfold headMatch? at h
  split at h
  · rename_i tail
    split at h
    · rename_i rest' hdrop
      split at h
      · simp at h
      · rename_i hrun
        simp only [Option.some.injEq, Prod.mk.injEq] at h
        obtain ⟨hrunEq, hrestEq⟩ := h
        subst hrunEq; subst hrestEq
        refine ⟨?_, by simpa using hrun, ?_⟩
        · have hsplit := List.takeWhile_append_dropWhile
            (p := fun c => decide (c ≠ '\x7d')) (l := tail)
          rw [hdrop] at hsplit
          rw [hsplit]
        · intro c hc
          have := List.mem_takeWhile_imp hc
          simpa using this
    · simp at h
  · simp at h

theorem headMatch?_head {c : Char} {cs : List Char} (h : c ≠ '\x7b') :
    headMatch? (c :: cs) = none := by
  cases hm : headMatch? (c :: cs) with
  | none => rfl
  | some pr =>
      obtain ⟨run, rest⟩ := pr
      obtain ⟨hshape, -, -⟩ := headMatch?_shape hm
      exact absurd (List.head_eq_of_cons_eq hshape) h

theorem headMatch?_second {c d : Char} {cs : List Char} (h : d ≠ '\x7b') :
    headMatch? (c :: d :: cs) = none := by
  cases hm : headMatch? (c :: d :: cs) with
  | none => rfl
  | some pr =>
      obtain ⟨run, rest⟩ := pr
      obtain ⟨hshape, -, -⟩ := headMatch?_shape hm
      exact absurd (List.head_eq_of_cons_eq (List.tail_eq_of_cons_eq hshape)) h

theorem headMatch?_single {c : Char} : headMatch? [c] = none := by
  cases hm : headMatch? [c] with
  | none => rfl
  | some pr =>
      obtain ⟨run, rest⟩ := pr
      obtain ⟨hshape, -, -⟩ := headMatch?_shape hm
      have := congrArg List.length hshape
      simp at this

theorem takeWhile_append_all {p : Char → Bool} {r : List Char} (s : List Char)
    (h : ∀ c ∈ r, p c = true) :
    (r ++ s).takeWhile p = r ++ s.takeWhile p := by
  induction r with
  | nil => rfl
  | cons a t ih =>
      have ha : p a = true := h a (List.mem_cons_self a t)
      simp only [List.cons_append, List.takeWhile_cons, ha, if_true]
      rw [ih fun c hc => h c (List.mem_cons_of_mem a hc)]

theorem dropWhile_append_all {p : Char → Bool} {r : List Char} (s : List Char)
    (h : ∀ c ∈ r, p c = true) :
    (r ++ s).dropWhile p = s.dropWhile p := by
  induction r with
  | nil => rfl
  | cons a t ih =>
      have ha : p a = true := h a (List.mem_cons_self a t)
      simp only [List.cons_append, List.dropWhile_cons, ha, if_true]
      exact ih fun c hc => h c (List.mem_cons_of_mem a hc)

theorem headMatch?_canon {run : List Char} (s : List Char) (hne : run ≠ [])
    (hrf : ∀ c ∈ run, c ≠ '\x7d') :
    headMatch? ('\x7b' :: '\x7b' :: (run ++ '\x7d' :: '\x7d' :: s)) =
      some (run, s) := by
  have hp : ∀ c ∈ run, (fun c => decide (c ≠ '\x7d')) c = true := by
    intro c hc; simpa using hrf c hc
  have htake : (run ++ '\x7d' :: '\x7d' :: s).takeWhile (fun c => decide (c ≠ '\x7d')) =
      run := by
    rw [takeWhile_append_all _ hp]
    simp [List.takeWhile_cons]
  have hdrop : (run ++ '\x7d' :: '\x7d' :: s).dropWhile (fun c => decide (c ≠ '\x7d')) =
      '\x7d' :: '\x7d' :: s := by
    rw [dropWhile_append_all _ hp]
    simp [List.dropWhile_cons]
  unfold headMatch?
  simp only [hdrop, htake]
  simp [hne]

theorem headBadB_intro {run : List Char} (rest : List Char) (hne : run ≠ [])
    (hrf : ∀ c ∈ run, c ≠ '\x7d') :
    headBadB (run ++ '\x7d' :: '\x7d' :: rest) = true := by
  unfold headBadB
  rw [headMatch?_canon rest hne hrf]
  rfl

theorem headBadB_elim {s : List Char} (h : headBadB s = true) :
    ∃ run rest, s = run ++ '\x7d' :: '\x7d' :: rest ∧ run ≠ [] ∧
      ∀ c ∈ run, c ≠ '\x7d' := by
  unfold headBadB at h
  rw [Option.isSome_iff_exists] at h
  obtain ⟨⟨run, rest⟩, hm⟩ := h
  obtain ⟨hshape, hne, hrf⟩ := headMatch?_shape hm
  refine ⟨run, rest, ?_, hne, hrf⟩
  exact List.tail_eq_of_cons_eq (List.tail_eq_of_cons_eq hshape)

theorem headBadB_of_headMatch?_none {tail : List Char}
    (h : headMatch? ('\x7b' :: '\x7b' :: tail) = none) : headBadB tail = false := by
  unfold headBadB
  rw [h]
  rfl

theorem headMatch?_none_of_headBadB {tail : List Char} (h : headBadB tail = false) :
    headMatch? ('\x7b' :: '\x7b' :: tail) = none := by
  unfold headBadB at h
  cases hm : headMatch? ('\x7b' :: '\x7b' :: tail) with
  | none => rfl
  | some pr => rw [hm] at h; cases h

/-! ### Stretches the scanner copies verbatim -/

theorem braceFree_mem {l : List Char} (h : braceFreeL l = true) {c : Char}
    (hc : c ∈ l) : c ≠ '\x7b' ∧ c ≠ '\x7d' := by
  unfold braceFreeL at h
  have := List.all_eq_true.mp h c hc
  simpa using this

theorem braceFree_tail {c : Char} {l : List Char}
    (h : braceFreeL (c :: l) = true) : braceFreeL l = true := by
  unfold braceFreeL at h ⊢
  simp only [List.all_cons, Bool.and_eq_true] at h
  exact h.2

theorem replVars_all_nonRB {lookup : String → Option String} {r : List Char}
    (h : ∀ c ∈ r, c ≠ '\x7d') : replVars lookup r = r := by
  induction r with
  | nil => exact replVars_nil lookup
  | cons c t ih =>
      have hnone : headMatch? (c :: t) = none := by
        cases hm : headMatch? (c :: t) with
        | none => rfl
        | some pr =>
            obtain ⟨run, rest⟩ := pr
            obtain ⟨hshape, -, -⟩ := headMatch?_shape hm
            have : '\x7d' ∈ c :: t := by
              rw [hshape]
              simp
            exact absurd rfl (h _ this)
      rw [replVars_nomatch hnone, ih fun c hc => h c (List.mem_cons_of_mem _ hc)]

theorem replVars_nonRB_last {lookup : String → Option String} {r : List Char}
    (h : ∀ c ∈ r, c ≠ '\x7d') :
    replVars lookup (r ++ ['\x7d']) = r ++ ['\x7d'] := by
  induction r with
  | nil =>
      rw [List.nil_append, replVars_nomatch (headMatch?_head (by decide))]
      rw [replVars_nil]
  | cons a t ih =>
      have hnone : headMatch? (a :: (t ++ ['\x7d'])) = none := by
        cases hm : headMatch? (a :: (t ++ ['\x7d'])) with
        | none => rfl
        | some pr =>
            obtain ⟨run, rest⟩ := pr
            obtain ⟨hshape, hne, hrf⟩ := headMatch?_shape hm
            -- the match would need two closing braces, but `r` has none and
            -- only a single one follows
            have hcount := congrArg (fun l => l.count '\x7d') hshape
            simp only [List.count_cons, List.count_append] at hcount
            have h0 : t.count '\x7d' = 0 := by
              rw [List.count_eq_zero]
              intro hmem
              exact absurd rfl (h _ (List.mem_cons_of_mem _ hmem))
            have h1 : run.count '\x7d' = 0 := by
              rw [List.count_eq_zero]
              intro hmem
              exact absurd rfl (hrf _ hmem)
            by_cases ha : a = '\x7d'
            · exact absurd rfl (h _ (by simp [ha]))
            · simp [ha, h0, h1, List.count_singleton] at hcount
      rw [List.cons_append, replVars_nomatch hnone,
        ih fun c hc => h c (List.mem_cons_of_mem _ hc)]

theorem replVars_nonRB_mid {lookup : String → Option String} {r : List Char}
    {c : Char} (s : List Char) (h : ∀ x ∈ r, x ≠ '\x7d') (hc : c ≠ '\x7d') :
    replVars lookup (r ++ '\x7d' :: c :: s) =
      r ++ '\x7d' :: replVars lookup (c :: s) := by
  induction r with
  | nil =>
      rw [List.nil_append, replVars_nomatch (headMatch?_head (by decide))]
      rfl
  | cons a t ih =>
      have hnone : headMatch? (a :: (t ++ '\x7d' :: c :: s)) = none := by
        cases hm : headMatch? (a :: (t ++ '\x7d' :: c :: s)) with
        | none => rfl
        | some pr =>
            obtain ⟨run, rest⟩ := pr
            obtain ⟨hshape, hne, hrf⟩ := headMatch?_shape hm
            -- strip the head
            have ha : a = '\x7b' := List.head_eq_of_cons_eq hshape
            have htail : t ++ '\x7d' :: c :: s = '\x7b' :: (run ++ '\x7d' :: '\x7d' :: rest) :=
              List.tail_eq_of_cons_eq hshape
            cases t with
            | nil => simp at htail
            | cons b t2 =>
                have hb : b = '\x7b' := List.head_eq_of_cons_eq htail
                have ht2 : t2 ++ '\x7d' :: c :: s = run ++ '\x7d' :: '\x7d' :: rest :=
                  List.tail_eq_of_cons_eq htail
                -- take/drop along the first closing brace on both sides
                have hp2 : ∀ x ∈ t2, (fun x => decide (x ≠ '\x7d')) x = true := by
                  intro x hx
                  simpa using h x (List.mem_cons_of_mem _ (List.mem_cons_of_mem _ hx))
                have hpr : ∀ x ∈ run, (fun x => decide (x ≠ '\x7d')) x = true := by
                  intro x hx
                  simpa using hrf x hx
                have hdropL : (t2 ++ '\x7d' :: c :: s).dropWhile
                    (fun x => decide (x ≠ '\x7d')) = '\x7d' :: c :: s := by
                  rw [dropWhile_append_all _ hp2]
                  simp [List.dropWhile_cons]
                have hdropR : (run ++ '\x7d' :: '\x7d' :: rest).dropWhile
                    (fun x => decide (x ≠ '\x7d')) = '\x7d' :: '\x7d' :: rest := by
                  rw [dropWhile_append_all _ hpr]
                  simp [List.dropWhile_cons]
                rw [ht2, hdropR] at hdropL
                have : c = '\x7d' := by
                  have := List.tail_eq_of_cons_eq hdropL
                  exact (List.head_eq_of_cons_eq this).symm
                exact absurd this hc
      rw [List.cons_append, replVars_nomatch hnone,
        ih fun x hx => h x (List.mem_cons_of_mem _ hx)]
      simp

theorem replVars_append_left {lookup : String → Option String} {v : List Char}
    (hv : braceFreeL v = true) (s : List Char) :
    replVars lookup (v ++ s) = v ++ replVars lookup s := by
  induction v with
  | nil => rfl
  | cons c t ih =>
      have hc := (braceFree_mem hv (List.mem_cons_self c t)).1
      rw [List.cons_append, replVars_nomatch (headMatch?_head hc),
        ih (braceFree_tail hv)]
      simp

/-! ### Idempotence of the scanner for plain replacement values -/

/-- The hypothesis on the binding map under which the substitution is
idempotent: every value a key can resolve to is nonempty and contains no
brace characters. -/
def PlainValues (lookup : String → Option String) : Prop :=
  ∀ k v, lookup k = some v → v.data ≠ [] ∧ braceFreeL v.data = true

theorem dropWhile_head_false {p : Char → Bool} {l : List Char} {e : Char}
    {d : List Char} (h : l.dropWhile p = e :: d) : p e = false := by
  induction l with
  | nil => cases h
  | cons a t ih =>
      rw [List.dropWhile_cons] at h
      by_cases hp : p a = true
      · rw [if_pos hp] at h
        exact ih h
      · rw [if_neg hp] at h
        obtain ⟨h1, -⟩ := List.cons_eq_cons.mp h
        rw [← h1]
        exact Bool.not_eq_true _ ▸ hp

theorem replVars_head_shape {lookup : String → Option String}
    (HV : PlainValues lookup) {c : Char} {cs : List Char} (hc : c ≠ '\x7d') :
    replVars lookup (c :: cs) = [] ∨
      ∃ d t, replVars lookup (c :: cs) = d :: t ∧ d ≠ '\x7d' := by
  cases hm : headMatch? (c :: cs) with
  | none => exact Or.inr ⟨c, replVars lookup cs, replVars_nomatch hm, hc⟩
  | some pr =>
      obtain ⟨run, rest⟩ := pr
      have hval := @replVars_match lookup _ _ _ hm
      cases hl : lookup (String.mk run) with
      | some v =>
          simp only [hl] at hval
          obtain ⟨hvne, hvf⟩ := HV _ _ hl
          cases hv : v.data with
          | nil => exact absurd hv hvne
          | cons d t =>
              refine Or.inr ⟨d, t ++ replVars lookup rest, ?_, ?_⟩
              · rw [hval, hv]
                rfl
              · exact (braceFree_mem hvf (by rw [hv]; exact List.mem_cons_self d t)).2
      | none =>
          simp only [hl] at hval
          exact Or.inr ⟨'\x7b', _, hval, by decide⟩

theorem headBadB_rb_head (l : List Char) : headBadB ('\x7d' :: l) = false := by
  cases hb : headBadB ('\x7d' :: l) with
  | false => rfl
  | true =>
      obtain ⟨run, rest, hshape, hne, hrf⟩ := headBadB_elim hb
      cases run with
      | nil => exact absurd rfl hne
      | cons y run2 =>
          have : y = '\x7d' := (List.head_eq_of_cons_eq hshape).symm
          exact absurd this (hrf y (List.mem_cons_self y run2))

/-- Scanning does not create a fresh opportunity for the pattern to fire
immediately after a `\x7b\x7b` that did not already have one. -/
theorem headBadB_replVars {lookup : String → Option String}
    (HV : PlainValues lookup) {s : List Char} (h : headBadB s = false) :
    headBadB (replVars lookup s) = false := by
  cases s with
  | nil => rw [replVars_nil]; decide
  | cons x s2 =>
      by_cases hx : x = '\x7d'
      · subst hx
        rw [replVars_nomatch (headMatch?_head (by decide))]
        exact headBadB_rb_head _
      · -- the maximal plain run at the head is nonempty
        have hxp : (fun c => decide (c ≠ '\x7d')) x = true := by simpa using hx
        cases hd : (x :: s2).dropWhile (fun c => decide (c ≠ '\x7d')) with
        | nil =>
            have hall : ∀ c ∈ x :: s2, c ≠ '\x7d' := by
              intro c hcmem
              have := List.dropWhile_eq_nil_iff.mp hd c hcmem
              simpa using this
            rw [replVars_all_nonRB hall]
            exact h
        | cons e d2 =>
            have he : e = '\x7d' := by
              have := dropWhile_head_false hd
              simpa using this
            subst he
            have hsplit := List.takeWhile_append_dropWhile
              (p := fun c => decide (c ≠ '\x7d')) (l := x :: s2)
            rw [hd] at hsplit
            have hrall : ∀ c ∈ (x :: s2).takeWhile (fun c => decide (c ≠ '\x7d')),
                c ≠ '\x7d' := by
              intro c hcmem
              have := List.mem_takeWhile_imp hcmem
              simpa using this
            cases d2 with
            | nil =>
                rw [← hsplit, replVars_nonRB_last hrall]
                rw [hsplit]
                exact h
            | cons f d3 =>
                by_cases hf : f = '\x7d'
                · subst hf
                  -- then the pattern fires in `s` itself, contradiction
                  have htk : ((x :: s2).takeWhile (fun c => decide (c ≠ '\x7d'))) ≠ [] := by
                    rw [List.takeWhile_cons, if_pos hxp]
                    simp
                  have : headBadB (x :: s2) = true := by
                    rw [← hsplit]
                    exact headBadB_intro d3 htk hrall
                  rw [this] at h
                  cases h
                · rw [← hsplit, replVars_nonRB_mid (c := f) d3 hrall hf]
                  -- show the result still has no firing pattern at its head
                  cases hb : headBadB (((x :: s2).takeWhile fun c => decide (c ≠ '\x7d')) ++
                      '\x7d' :: replVars lookup (f :: d3)) with
                  | false => rfl
                  | true =>
                      obtain ⟨run, rest, hshape, hne, hrf⟩ := headBadB_elim hb
                      -- take/drop the first closer on both sides of the identity
                      have hpr : ∀ c ∈ run, (fun c => decide (c ≠ '\x7d')) c = true := by
                        intro c hcmem; simpa using hrf c hcmem
                      have hpt : ∀ c ∈ (x :: s2).takeWhile (fun c => decide (c ≠ '\x7d')),
                          (fun c => decide (c ≠ '\x7d')) c = true := by
                        intro c hcmem; simpa using hrall c hcmem
                      have hdropL := congrArg (List.dropWhile fun c => decide (c ≠ '\x7d'))
                        hshape
                      rw [dropWhile_append_all _ hpt, dropWhile_append_all _ hpr] at hdropL
                      simp only [List.dropWhile_cons] at hdropL
                      norm_num at hdropL
                      -- the scanned tail would have to start with a closer
                      rcases @replVars_head_shape lookup HV f d3 hf with hnil | ⟨d, t, hcons, hdne⟩
                      · rw [hnil] at hdropL
                        cases hdropL
                      · rw [hcons] at hdropL
                        obtain ⟨h1, -⟩ := List.cons_eq_cons.mp hdropL
                        exact absurd h1 hdne

/-- A position at which the pattern does not fire still does not fire after
the tail has been scanned. -/
theorem headMatch?_none_replVars {lookup : String → Option String}
    (HV : PlainValues lookup) {c : Char} {cs : List Char}
    (h : headMatch? (c :: cs) = none) :
    headMatch? (c :: replVars lookup cs) = none := by
  by_cases hc : c = '\x7b'
  · subst hc
    cases cs with
    | nil => rw [replVars_nil]; exact headMatch?_single
    | cons d cs2 =>
        by_cases hd : d = '\x7b'
        · subst hd
          have hbad : headBadB cs2 = false := headBadB_of_headMatch?_none h
          have hnone2 : headMatch? ('\x7b' :: cs2) = none := by
            cases hm : headMatch? ('\x7b' :: cs2) with
            | none => rfl
            | some pr =>
                obtain ⟨run, rest⟩ := pr
                obtain ⟨hshape, hne, hrf⟩ := headMatch?_shape hm
                have hcs2 : cs2 = ('\x7b' :: run) ++ '\x7d' :: '\x7d' :: rest := by
                  have h' := List.tail_eq_of_cons_eq hshape
                  simpa using h'
                have : headBadB cs2 = true := by
                  rw [hcs2]
                  refine headBadB_intro rest (by simp) ?_
                  intro y hy
                  rcases List.mem_cons.mp hy with hy | hy
                  · rw [hy]; decide
                  · exact hrf y hy
                rw [this] at hbad
                cases hbad
          rw [replVars_nomatch hnone2]
          exact headMatch?_none_of_headBadB (headBadB_replVars HV hbad)
        · rw [replVars_nomatch (headMatch?_head hd)]
          exact headMatch?_second hd
  · exact headMatch?_head hc

/-- Scanning is idempotent as soon as every replacement value is nonempty
and brace-free. -/
theorem replVars_idem {lookup : String → Option String}
    (HV : PlainValues lookup) (cs : List Char) :
    replVars lookup (replVars lookup cs) = replVars lookup cs := by
  suffices H : ∀ n (cs : List Char), cs.length ≤ n →
      replVars lookup (replVars lookup cs) = replVars lookup cs from
    H cs.length cs le_rfl
  intro n
  induction n with
  | zero =>
      intro cs hcs
      have : cs = [] := List.eq_nil_of_length_eq_zero (Nat.le_zero.mp hcs)
      subst this
      rw [replVars_nil, replVars_nil]
  | succ n ih =>
      intro cs hcs
      cases hm : headMatch? cs with
      | some pr =>
          obtain ⟨run, rest⟩ := pr
          obtain ⟨hshape, hne, hrf⟩ := headMatch?_shape hm
          have hlt : rest.length < cs.length := by
            rw [hshape]
            simp
            omega
          have hrest : replVars lookup (replVars lookup rest) = replVars lookup rest :=
            ih rest (by omega)
          rw [replVars_match hm]
          cases hl : lookup (String.mk run) with
          | some v =>
              simp only [hl]
              obtain ⟨hvne, hvf⟩ := HV _ _ hl
              rw [replVars_append_left hvf, hrest]
          | none =>
              simp only [hl]
              have hm2 := headMatch?_canon (replVars lookup rest) hne hrf
              rw [show ('\x7b' :: '\x7b' :: (run ++ ['\x7d', '\x7d'])) ++
                  replVars lookup rest =
                  '\x7b' :: '\x7b' :: (run ++ '\x7d' :: '\x7d' :: replVars lookup rest) by
                simp]
              rw [replVars_match hm2]
              simp only [hl]
              rw [hrest]
              simp
      | none =>
          cases cs with
          | nil => rw [replVars_nil, replVars_nil]
          | cons c cs2 =>
              rw [replVars_nomatch hm,
                replVars_nomatch (headMatch?_none_replVars HV hm)]
              have hlen : cs2.length ≤ n := by
                simp only [List.length_cons] at hcs
                omega
              rw [ih cs2 hlen]

/-! ## Field lemmas for the node functions -/

theorem generateQuestion_currentStep (i : Nat) (resp : String) (s : GState) :
    (generateQuestion i resp s).currentStep = Cursor.int i := by
  simp only [generateQuestion]
  split <;> rfl

theorem generateQuestion_steps (i : Nat) (resp : String) (s : GState) :
    (generateQuestion i resp s).steps = s.steps := by
  simp only [generateQuestion]
  split <;> rfl

theorem generateQuestion_finish (i : Nat) (resp : String) (s : GState) :
    (generateQuestion i resp s).currentStepFinish = gqIsFinish i resp s := by
  simp only [generateQuestion]
  split <;> simp_all

theorem endSurvey_currentStep (s : GState) :
    (endSurvey s).finalState.currentStep = s.currentStep := rfl

theorem endSurvey_steps (s : GState) :
    (endSurvey s).finalState.steps = s.steps := rfl

/-! ## Claim C1 — routing of a finished LINEAR step -/

/-- A concrete one-step session right after its only LINEAR step finished
(`_make_generate_question` has set the finish flag and cleared the per-step
transcript). -/
def c1State : GState :=
  { messages := [Msg.system "sys", Msg.ai "hi", Msg.human "hello"]
    steps := [⟨"Ask name", "linear", "", []⟩]
    systemPrompt := "sys"
    backgroundKnowledge := ""
    maxTurns := 1
    currentStep := Cursor.int 0
    currentStepFinish := true
    currentStepMessages := []
    threadId := "conv"
    endMessage := "bye" }

/-- The same session with a second LINEAR step appended. -/
def c1bState : GState :=
  { c1State with
      steps := [⟨"Ask name", "linear", "", []⟩, ⟨"Ask age", "linear", "", []⟩] }

/-- Claim C1 (code bug).  The claim states the spec's intent — after LINEAR
step `i` finishes, the next node is `(i+1)_q` when `i+1 < n` and
`end_survey` otherwise — but the code is off by one: `_get_user_answer`
bumps `current_step` to `i + 1` *before* the conditional edge runs, so
`_should_continue` indexes `steps[i+1]`.  For the single-step template this
raises `IndexError` (the run fails; `end_survey` is never reached), and for
the two-LINEAR-step template the router lands on `end_survey` instead of
`1_q`, skipping the second step entirely. -/
theorem C1_single_linear_step_crash :
    answerAndRoute (fun _ => Except.ok "n") "ok" c1State = none ∧
    answerAndRoute (fun _ => Except.ok "n") "ok" c1bState =
      some ({ c1bState with currentStep := Cursor.int 1 }, "end_survey") ∧
    "end_survey" ≠ toString (0 + 1) ++ "_q" := by
  refine ⟨rfl, rfl, by decide⟩

/-! ## Claim C3 — step-completion detection -/

/-- Claim C3.  At a question node the step is marked finished exactly when the
model output contains `"FINISH"` case-insensitively (embedded as: the
upper-cased output contains the upper-casing of `"finish"`), or the per-step
transcript at the moment of the check (after the possible injection of the
step instruction) has length at least `2*max_turns + 1`; in particular the
turn-count bound alone finishes the step even without `FINISH`. -/
theorem C3_finish_detection (i : Nat) (resp : String) (s : GState) :
    (generateQuestion i resp s).currentStepFinish =
      (strContainsB (pyUpper resp) (pyUpper "finish") ||
        decide ((gqCsm i s).length ≥ 2 * s.maxTurns + 1)) ∧
    ((gqCsm i s).length ≥ 2 * s.maxTurns + 1 →
      (generateQuestion i resp s).currentStepFinish = true) := by
  have hup : pyUpper "finish" = "FINISH" := by decide
  have harith : s.maxTurns * 2 + 1 = 2 * s.maxTurns + 1 := by ring
  have heq : (generateQuestion i resp s).currentStepFinish =
      (strContainsB (pyUpper resp) (pyUpper "finish") ||
        decide ((gqCsm i s).length ≥ 2 * s.maxTurns + 1)) := by
    rw [generateQuestion_finish, hup]
    unfold gqIsFinish
    rw [harith]
  refine ⟨heq, fun hbound => ?_⟩
  rw [heq]
  simp only [Bool.or_eq_true, decide_eq_true_eq]
  right
  exact hbound

/-- A per-step transcript that has reached the `max_turns = 1` bound. -/
def c3State : GState :=
  { c1State with
      currentStepFinish := false
      currentStepMessages := [Msg.ai "Ask name", Msg.human "why?", Msg.ai "please"] }

theorem C3_finish_detection_witness :
    (generateQuestion 0 "no marker here" c3State).currentStepFinish = true :=
  ((C3_finish_detection 0 "no marker here" c3State).2 (by decide))

/-! ## Claim C4 — `/chat/continue` on a cache miss -/

/-- Claim C4 counterexample.  The claim — a user-facing error arises only when
no live graph *and* no checkpoint exist — is false: the cache subscript in
`continue_survey` raises `KeyError` before any checkpoint is consulted, so
the request fails even when a checkpoint for the conversation exists. -/
theorem C4_counterexample :
    ¬ (∀ (cache checkpoints : List String) (req : ContinueRequest),
        (∃ k, continueSurvey cache checkpoints req = ContinueOutcome.keyError k) →
        checkpoints.contains req.conversationId = false) := by
  intro h
  have h2 := h [] ["c1"] ⟨"c1", "my reply", "tpl"⟩ ⟨"tpl" ++ "c1", rfl⟩
  exact absurd h2 (by decide)

/-- Claim C4, amended.  When the key `template_id + conversation_id` is not in
the in-process cache, `continue_survey` raises `KeyError` — independently of
whatever checkpoints exist; no template re-compilation or checkpoint resume
is attempted.  With the key present, the cached graph is resumed with the
user response. -/
theorem C4_cache_miss_raises (cache checkpoints : List String)
    (req : ContinueRequest)
    (hmiss : cache.contains (req.templateId ++ req.conversationId) = false) :
    continueSurvey cache checkpoints req =
      ContinueOutcome.keyError (req.templateId ++ req.conversationId) ∧
    ∀ checkpoints', continueSurvey cache checkpoints' req =
      continueSurvey cache checkpoints req := by
  unfold continueSurvey
  simp [hmiss]
  intro hmem
  have : cache.contains (req.templateId ++ req.conversationId) = true :=
    List.elem_eq_true_of_mem hmem
  rw [this] at hmiss
  cases hmiss

theorem C4_cache_miss_raises_witness :
    continueSurvey [] ["c1"] ⟨"c1", "my reply", "tpl"⟩ =
      ContinueOutcome.keyError ("tpl" ++ "c1") ∧
    ∀ checkpoints', continueSurvey [] checkpoints' ⟨"c1", "my reply", "tpl"⟩ =
      continueSurvey [] ["c1"] ⟨"c1", "my reply", "tpl"⟩ :=
  C4_cache_miss_raises [] ["c1"] ⟨"c1", "my reply", "tpl"⟩ (by decide)

/-! ## Claim C5 — terminal transition and checkpoint purging -/

/-- Claim C5 counterexample.  `_end_survey` writes the chat log but issues no
checkpoint purge whatsoever (`clear_thread_state` is never called anywhere
in the repository), so "all checkpoints for the thread are purged" fails. -/
theorem C5_counterexample :
    ¬ (∀ s : GState,
        (endSurvey s).chatLogWrites =
          [(s.threadId, s.messages ++ [Msg.ai s.endMessage])] ∧
        s.threadId ∈ (endSurvey s).checkpointPurges) := by
  intro h
  have h2 := (h c1State).2
  simp [endSurvey] at h2

/-- Claim C5, amended.  On the terminal transition the final transcript (with
the end message appended) is written to chat log storage, but no purge
request is issued: the checkpoint store is left untouched.  (Had
`clear_thread_state` been called, it would indeed leave no key of the
thread: the third conjunct.) -/
theorem C5_log_written_no_purge (s : GState) :
    (endSurvey s).chatLogWrites =
      [(s.threadId, s.messages ++ [Msg.ai s.endMessage])] ∧
    (endSurvey s).checkpointPurges = [] ∧
    (∀ (pfx tid : String) (keys : List String),
      ∀ k ∈ clearThreadState pfx tid keys, isThreadKey pfx tid k = false) := by
  refine ⟨rfl, rfl, ?_⟩
  intro pfx tid keys k hk
  unfold clearThreadState at hk
  have := List.of_mem_filter hk
  simpa using this

theorem C5_log_written_no_purge_witness :
    (endSurvey c1State).chatLogWrites =
      [(c1State.threadId, c1State.messages ++ [Msg.ai c1State.endMessage])] ∧
    (endSurvey c1State).checkpointPurges = [] := by
  have h := C5_log_written_no_purge c1State
  exact ⟨h.1, h.2.1⟩

/-! ## Claim C7 — condition evaluation when the oracle raises -/

/-- The state used to separate the actual error handling from the claimed
substring fallback: a CONDITION step whose predicate occurs verbatim in the
last user reply, with an in-range "Y" branch. -/
def c7State : GState :=
  { messages := []
    steps := [⟨"Collect preference", "linear", "", []⟩,
              ⟨"", "condition", "tea", ["2", "END"]⟩]
    systemPrompt := ""
    backgroundKnowledge := ""
    maxTurns := 1
    currentStep := Cursor.int 1
    currentStepFinish := true
    currentStepMessages := [Msg.human "I like tea"]
    threadId := "conv"
    endMessage := "bye" }

/-- Claim C7 counterexample.  The claim — on oracle failure the evaluator
falls back to a substring match of the predicate against the last user reply
— is false: `_route_condition_step` catches the exception and returns
`end_survey` unconditionally.  At `c7State` the spec-modelled fallback picks
branch `"2"` (node `1_q`), the code routes to `end_survey`. -/
theorem C7_counterexample :
    ¬ (∀ (oracle : String → Except Unit String) (s : GState),
        (∀ p, oracle p = Except.error ()) →
        routeConditionStep oracle s = specFallbackRoute s) := by
  intro h
  have h2 := h (fun _ => Except.error ()) c7State (fun _ => rfl)
  rw [show routeConditionStep (fun _ => Except.error ()) c7State = "end_survey"
      from rfl] at h2
  rw [show specFallbackRoute c7State = "1_q" from by decide] at h2
  exact absurd h2 (by decide)

/-- Claim C7, amended.  An oracle failure during condition evaluation is
never fatal: `_route_condition_step` catches every exception and routes the
session to `end_survey` — no substring fallback is applied. -/
theorem C7_oracle_failure_end_survey (oracle : String → Except Unit String)
    (s : GState) (i : Nat) (st : Step)
    (hcur : s.currentStep = Cursor.int i)
    (hst : s.steps.get? i = some st)
    (horacle : oracle (conditionPrompt st.condition
      (assembleConversationContext s.currentStepMessages)) = Except.error ()) :
    routeConditionStep oracle s = "end_survey" := by
  unfold routeConditionStep getNextStep
  simp only [hcur, hst, horacle]

theorem C7_oracle_failure_end_survey_witness :
    routeConditionStep (fun _ => Except.error ()) c7State = "end_survey" :=
  C7_oracle_failure_end_survey (fun _ => Except.error ()) c7State 1
    ⟨"", "condition", "tea", ["2", "END"]⟩ rfl rfl rfl

/-! ## Claim C8 — no discard-and-retry for the `# 目标` echo -/

/-- A session state in which a `# 目标` echo would not finish the step. -/
def c8State : GState :=
  { c1State with
      maxTurns := 5
      currentStepFinish := false
      currentStepMessages := [Msg.ai "Ask name"] }

/-- Claim C8 counterexample.  The claim — text starting with `# 目标` is
discarded and never appended to the transcript — is false:
`_make_generate_question` contains no such check and appends the echo like
any other response. -/
theorem C8_counterexample :
    ¬ (∀ (i : Nat) (resp : String) (s : GState),
        pyStartsWith resp "# 目标" = true →
        ¬ (Msg.ai resp ∈ (generateQuestion i resp s).messages)) := by
  intro h
  exact h 0 "# 目标 echoed goal" c8State (by decide) (by decide)

/-- Claim C8, amended.  The single oracle response is used as-is: even when
it starts with the literal prefix `# 目标`, the node runs completion
detection on it and, when the step does not finish, appends exactly this
text as the next assistant message of both transcripts — there is no second
oracle invocation. -/
theorem C8_echo_kept (i : Nat) (resp : String) (s : GState)
    (hpre : pyStartsWith resp "# 目标" = true)
    (hfin : gqIsFinish i resp s = false) :
    (generateQuestion i resp s).messages = gqMessages i s ++ [Msg.ai resp] ∧
    (generateQuestion i resp s).currentStepMessages =
      gqCsm i s ++ [Msg.ai resp] := by
  unfold generateQuestion
  rw [hfin]
  exact ⟨rfl, rfl⟩

/-! ## Claim C2 — routing of a finished CONDITION step -/

/-- Helper: the verdict/branch mapping performed by `_get_next_step` and
`_route_condition_step` on whatever state the router is actually given
(cursor at a condition step, oracle answering on that step's transcript). -/
theorem routeConditionStep_mapping (oracle : String → Except Unit String)
    (s : GState) (i : Nat) (st : Step) (resp : String)
    (hcur : s.currentStep = Cursor.int i)
    (hst : s.steps.get? i = some st)
    (hcond : pyLower st.type ≠ "linear")
    (horacle : oracle (conditionPrompt st.condition
      (assembleConversationContext s.currentStepMessages)) = Except.ok resp) :
    shouldContinue oracle s = some (routeConditionStep oracle s) ∧
    (∀ b, (if verdictIsYes resp then st.branches.get? 0
           else st.branches.get? 1) = some b →
      (pyUpper b = "END" → routeConditionStep oracle s = "end_survey") ∧
      (∀ k : Int, pyUpper b ≠ "END" → pyInt? b = some k →
        1 ≤ k → k ≤ (s.steps.length : Int) →
        routeConditionStep oracle s = toString (k - 1) ++ "_q") ∧
      (∀ k : Int, pyUpper b ≠ "END" → pyInt? b = some k →
        (k < 1 ∨ (s.steps.length : Int) < k) →
        routeConditionStep oracle s = "end_survey") ∧
      (pyUpper b ≠ "END" → pyInt? b = none →
        routeConditionStep oracle s = "end_survey")) ∧
    ((if verdictIsYes resp then st.branches.get? 0
      else st.branches.get? 1) = none →
      routeConditionStep oracle s = "end_survey") := by
  have hnext : getNextStep oracle s =
      (match (if verdictIsYes resp then st.branches.get? 0
              else st.branches.get? 1) with
       | none => Except.error ()
       | some selected =>
         if pyUpper selected == "END" then Except.ok NextStep.END
         else
           match pyInt? selected with
           | some k => Except.ok (NextStep.idx (k - 1))
           | none => Except.ok NextStep.END) := by
    unfold getNextStep
    simp only [hcur, hst, horacle]
  refine ⟨?_, ?_, ?_⟩
  · unfold shouldContinue
    simp only [hcur, hst]
    rw [if_neg (by simpa using hcond)]
  · intro b hb
    rw [hb] at hnext
    have hnext2 : getNextStep oracle s =
        (if pyUpper b == "END" then Except.ok NextStep.END
         else
           match pyInt? b with
           | some k => Except.ok (NextStep.idx (k - 1))
           | none => Except.ok NextStep.END) := hnext
    refine ⟨?_, ?_, ?_, ?_⟩
    · intro hE
      have hval : getNextStep oracle s = Except.ok NextStep.END := by
        rw [hnext2, if_pos (by simp [hE])]
      unfold routeConditionStep
      simp only [hval]
    · intro k hne hk h1 h2
      have hval : getNextStep oracle s = Except.ok (NextStep.idx (k - 1)) := by
        rw [hnext2, if_neg (by simpa using hne), hk]
      unfold routeConditionStep
      simp only [hval]
      rw [if_neg (by
        simp only [Bool.or_eq_true, decide_eq_true_eq, not_or]
        constructor <;> omega)]
    · intro k hne hk hout
      have hval : getNextStep oracle s = Except.ok (NextStep.idx (k - 1)) := by
        rw [hnext2, if_neg (by simpa using hne), hk]
      unfold routeConditionStep
      simp only [hval]
      rw [if_pos (by
        simp only [Bool.or_eq_true, decide_eq_true_eq]
        omega)]
    · intro hne hparse
      have hval : getNextStep oracle s = Except.ok NextStep.END := by
        rw [hnext2, if_neg (by simpa using hne), hparse]
      unfold routeConditionStep
      simp only [hval]
  · intro hb
    rw [hb] at hnext
    have hval : getNextStep oracle s = Except.error () := hnext
    unfold routeConditionStep
    simp only [hval]

/-- A CONDITION step used by the C2 state: predicate `milk`, branches
`["2", "END"]`. -/
def c2CondStep : Step := ⟨"", "condition", "milk", ["2", "END"]⟩

/-- A two-step session whose *first* step is the CONDITION step, right
after it finished (finish flag set, per-step transcript cleared). -/
def c2State : GState :=
  { c1State with
      steps := [c2CondStep, ⟨"Ask name", "linear", "", []⟩] }

/-- Claim C2 counterexample.  The claim — a finished CONDITION step has its
per-step transcript passed to the Condition Evaluator and its branches
mapped — is false of the composition: by routing time the transcript has
been cleared and `_get_user_answer` has bumped the cursor to `i + 1`, so
the router dispatches on `steps[i+1]` and never consults the finished
step's condition.  At `c2State` (condition step 0 finished, verdict-`Y`
oracle) the claimed behaviour is node `1_q` via `branches[0] = "2"`, but
the program routes to `end_survey` through the *next* step's LINEAR
fall-through. -/
theorem C2_counterexample :
    ¬ (∀ (oracle : String → Except Unit String) (input : String) (s : GState)
         (i : Nat) (st : Step),
        s.currentStep = Cursor.int i → s.currentStepFinish = true →
        s.currentStepMessages = [] → s.steps.get? i = some st →
        pyLower st.type = "condition" →
        ∃ s', answerAndRoute oracle input s =
          some (s', routeConditionStep oracle s)) := by
  intro h
  obtain ⟨s', hs'⟩ := h (fun _ => Except.ok "Y") "ok" c2State 0 c2CondStep
    rfl rfl rfl rfl (by decide)
  rw [show answerAndRoute (fun _ => Except.ok "Y") "ok" c2State =
      some ({ c2State with currentStep := Cursor.int 1 }, "end_survey")
    from rfl] at hs'
  rw [show routeConditionStep (fun _ => Except.ok "Y") c2State = "1_q"
    from by decide] at hs'
  simp only [Option.some.injEq, Prod.mk.injEq] at hs'
  exact absurd hs'.2 (by decide)

/-- Claim C2, amended.  When a CONDITION step at index `i` finishes, its
transcript has already been cleared and the answer node bumps the cursor to
`i + 1` before the conditional edge runs, so the Condition Evaluator is
never given the finished step's transcript; the router dispatches on
`steps[i+1]`.  When `steps[i+1]` is itself a CONDITION step, *its*
condition is evaluated over the empty per-step transcript and *its*
branches are mapped: a `Y`-ish verdict selects `branches[0]`, else
`branches[1]`; `"END"` (case-insensitively) forces `end_survey`; an
in-range 1-based step number `k` (Python `int()` syntax, underscores
included) yields node `(k-1)_q`; a non-integer or out-of-range value (and a
missing branch) forces `end_survey`. -/
theorem C2_condition_routing_post_bump (oracle : String → Except Unit String)
    (input : String) (s : GState) (i : Nat) (st st' : Step) (resp : String)
    (hcur : s.currentStep = Cursor.int i)
    (hfin : s.currentStepFinish = true)
    (hcsm : s.currentStepMessages = [])
    (hst : s.steps.get? i = some st)
    (hcond : pyLower st.type = "condition")
    (hst' : s.steps.get? (i + 1) = some st')
    (hcond' : pyLower st'.type = "condition")
    (horacle : oracle (conditionPrompt st'.condition
      (assembleConversationContext [])) = Except.ok resp) :
    answerAndRoute oracle input s =
      some ({ s with currentStep := Cursor.int (i + 1) },
        routeConditionStep oracle { s with currentStep := Cursor.int (i + 1) }) ∧
    (∀ b, (if verdictIsYes resp then st'.branches.get? 0
           else st'.branches.get? 1) = some b →
      (pyUpper b = "END" → routeConditionStep oracle
          { s with currentStep := Cursor.int (i + 1) } = "end_survey") ∧
      (∀ k : Int, pyUpper b ≠ "END" → pyInt? b = some k →
        1 ≤ k → k ≤ (s.steps.length : Int) →
        routeConditionStep oracle { s with currentStep := Cursor.int (i + 1) } =
          toString (k - 1) ++ "_q") ∧
      (∀ k : Int, pyUpper b ≠ "END" → pyInt? b = some k →
        (k < 1 ∨ (s.steps.length : Int) < k) →
        routeConditionStep oracle { s with currentStep := Cursor.int (i + 1) } =
          "end_survey") ∧
      (pyUpper b ≠ "END" → pyInt? b = none →
        routeConditionStep oracle { s with currentStep := Cursor.int (i + 1) } =
          "end_survey")) ∧
    ((if verdictIsYes resp then st'.branches.get? 0
      else st'.branches.get? 1) = none →
      routeConditionStep oracle { s with currentStep := Cursor.int (i + 1) } =
        "end_survey") := by
  have hbump : getUserAnswer input s =
      some { s with currentStep := Cursor.int (i + 1) } := by
    unfold getUserAnswer
    rw [hcsm, hfin, hcur]
    simp
  have hcur' : ({ s with currentStep := Cursor.int (i + 1) } : GState).currentStep =
      Cursor.int (i + 1) := rfl
  have hst'' : ({ s with currentStep := Cursor.int (i + 1) } : GState).steps.get?
      (i + 1) = some st' := hst'
  have hlin' : pyLower st'.type ≠ "linear" := by
    rw [hcond']
    decide
  have horacle' : oracle (conditionPrompt st'.condition
      (assembleConversationContext
        ({ s with currentStep := Cursor.int (i + 1) } : GState).currentStepMessages)) =
      Except.ok resp := by
    show oracle (conditionPrompt st'.condition
      (assembleConversationContext s.currentStepMessages)) = Except.ok resp
    rw [hcsm]
    exact horacle
  have hmap := routeConditionStep_mapping oracle
    { s with currentStep := Cursor.int (i + 1) } (i + 1) st' resp
    hcur' hst'' hlin' horacle'
  refine ⟨?_, hmap.2.1, hmap.2.2⟩
  unfold answerAndRoute
  simp only [hbump, hmap.1]

/-- A two-CONDITION-step session: after step 0 finishes, the router
evaluates step 1's condition over the empty transcript. -/
def c2bState : GState :=
  { c1State with
      steps := [c2CondStep, ⟨"", "condition", "tea", ["1", "END"]⟩] }

theorem C2_condition_routing_post_bump_witness :
    answerAndRoute (fun _ => Except.ok "Y") "ok" c2bState =
      some ({ c2bState with currentStep := Cursor.int 1 },
        routeConditionStep (fun _ => Except.ok "Y")
          { c2bState with currentStep := Cursor.int 1 }) ∧
    routeConditionStep (fun _ => Except.ok "Y")
      { c2bState with currentStep := Cursor.int 1 } = "0_q" := by
  have h := C2_condition_routing_post_bump (fun _ => Except.ok "Y") "ok"
    c2bState 0 c2CondStep ⟨"", "condition", "tea", ["1", "END"]⟩ "Y"
    rfl rfl rfl rfl (by decide) rfl (by decide) rfl
  refine ⟨h.1, ?_⟩
  have h2 := (h.2.1 "1" (by decide)).2.1 1 (by decide) (by decide)
    (by decide) (by decide)
  rw [h2]
  decide

/-! ## Claim C6 — what the `current_step` cursor holds -/

/-- The initial state of a one-step session, as `/chat/stream` builds it. -/
def c6Init : GState :=
  initialState [⟨"Ask name", "linear", "", []⟩] "sys" 1 "hi" "hello" "conv" "bye"

/-- Claim C6 counterexample.  The claim — in every observed state
`current_step` holds a node label `<i>_q` / `<i>_a` / `end_survey` — is
false: already after the first question node executes, the cursor holds the
integer `0`, not a label string. -/
theorem C6_counterexample :
    Observed [⟨"Ask name", "linear", "", []⟩]
      (generateQuestion 0 "What is your name?" c6Init) ∧
    cursorIsNodeLabel
      (generateQuestion 0 "What is your name?" c6Init).currentStep = false := by
  constructor
  · exact Observed.question c6Init 0 "What is your name?"
      (Observed.init "sys" 1 "hi" "hello" "conv" "bye") (by decide)
  · rw [generateQuestion_currentStep]
    rfl

/-- Claim C6, amended.  In every observed state the cursor is either the
seeded label string `"0_q"` (the initial state only) or an integer step
index `i ≤ n`; it never holds a `<i>_a` label, and after any node execution
it is an integer, not a node label. -/
theorem C6_cursor_invariant (steps : List Step) (s : GState)
    (h : Observed steps s) :
    s.steps = steps ∧
    (s.currentStep = Cursor.str "0_q" ∨
      ∃ i, i ≤ steps.length ∧ s.currentStep = Cursor.int i) := by
  induction h with
  | init sp mt w f c e => exact ⟨rfl, Or.inl rfl⟩
  | question s i resp hobs hi ih =>
      refine ⟨?_, Or.inr ⟨i, Nat.le_of_lt hi, ?_⟩⟩
      · rw [generateQuestion_steps]
        exact ih.1
      · exact generateQuestion_currentStep i resp s
  | answer s i resp input s' hobs hi hans ih =>
      unfold getUserAnswer at hans
      split at hans
      · rw [generateQuestion_currentStep] at hans
        simp only [Option.some.injEq] at hans
        subst hans
        refine ⟨?_, Or.inr ⟨i + 1, by omega, rfl⟩⟩
        show (generateQuestion i resp s).steps = steps
        rw [generateQuestion_steps]
        exact ih.1
      · simp only [Option.some.injEq] at hans
        subst hans
        refine ⟨?_, Or.inr ⟨i, Nat.le_of_lt hi, ?_⟩⟩
        · show (generateQuestion i resp s).steps = steps
          rw [generateQuestion_steps]
          exact ih.1
        · show (generateQuestion i resp s).currentStep = Cursor.int i
          exact generateQuestion_currentStep i resp s
  | finished s hobs ih => exact ih

theorem C6_cursor_invariant_witness :
    c6Init.steps = [⟨"Ask name", "linear", "", []⟩] ∧
    (c6Init.currentStep = Cursor.str "0_q" ∨
      ∃ i, i ≤ [(⟨"Ask name", "linear", "", []⟩ : Step)].length ∧
        c6Init.currentStep = Cursor.int i) :=
  C6_cursor_invariant [⟨"Ask name", "linear", "", []⟩] c6Init
    (Observed.init "sys" 1 "hi" "hello" "conv" "bye")

theorem C8_echo_kept_witness :
    (generateQuestion 0 "# 目标 echoed goal" c8State).messages =
      gqMessages 0 c8State ++ [Msg.ai "# 目标 echoed goal"] ∧
    (generateQuestion 0 "# 目标 echoed goal" c8State).currentStepMessages =
      gqCsm 0 c8State ++ [Msg.ai "# 目标 echoed goal"] :=
  C8_echo_kept 0 "# 目标 echoed goal" c8State (by decide) (by decide)

/-! ## Claim C9 — the serializer cleaner -/

theorem PyVal.isNone_iff (v : PyVal) : v.isNone = true ↔ v = PyVal.pynone := by
  cases v <;> simp [PyVal.isNone]

theorem cleanVal_primitive {v : PyVal} (h : v.isPrimitive = true) :
    cleanVal v = v := by
  cases v <;> first
    | rfl
    | simp [PyVal.isPrimitive] at h

theorem cleanEntries_preserves {entries : List (PyKey × PyVal)} {k : PyKey}
    {v : PyVal} (hkb : k.isBasic = true) (hv : v.isPrimitive = true)
    (hmem : (k, v) ∈ entries) : (k, v) ∈ cleanEntries entries := by
  induction entries with
  | nil => cases hmem
  | cons e rest ih =>
      obtain ⟨ek, ev⟩ := e
      rcases List.mem_cons.mp hmem with heq | hmem2
      · cases heq
        rw [cleanEntries]
        by_cases hn : v.isNone = true
        · have hvn : v = PyVal.pynone := (PyVal.isNone_iff v).mp hn
          subst hvn
          simp [hkb, cleanVal, PyVal.isNone]
        · have hcv : cleanVal v = v := cleanVal_primitive hv
          simp [hkb, hcv, hn]
      · have hin := ih hmem2
        rw [cleanEntries]
        by_cases hek : ek.isBasic = true
        · by_cases hcn : (cleanVal ev).isNone = true
          · by_cases hevn : ev.isNone = true
            · simp only [hek, hcn, hevn, if_true]
              exact List.mem_cons_of_mem _ hin
            · by_cases hevp : ev.isPrimitive = true
              · simp [hek, hcn, hevn, hevp, hin]
              · simp [hek, hcn, hevn, hevp, hin]
          · simp [hek, hcn, hin]
        · simp [hek, hin]

theorem cleanItems_preserves {items : List PyVal} {v : PyVal}
    (hv : v.isPrimitive = true) (hmem : v ∈ items) : v ∈ cleanItems items := by
  induction items with
  | nil => cases hmem
  | cons e rest ih =>
      rcases List.mem_cons.mp hmem with heq | hmem2
      · cases heq
        rw [cleanItems]
        have hcv : cleanVal v = v := cleanVal_primitive hv
        rw [hcv]
        by_cases hn : v.isNone = true
        · rw [if_pos hn, if_pos hn]
          have hvn : v = PyVal.pynone := (PyVal.isNone_iff v).mp hn
          rw [hvn]
          exact List.mem_cons_self _ _
        · rw [if_neg hn]
          exact List.mem_cons_self _ _
      · have hin := ih hmem2
        rw [cleanItems]
        by_cases hcn : (cleanVal e).isNone = true
        · rw [if_pos hcn]
          by_cases hen : e.isNone = true
          · rw [if_pos hen]
            exact List.mem_cons_of_mem _ hin
          · rw [if_neg hen]
            exact hin
        · rw [if_neg hcn]
          exact List.mem_cons_of_mem _ hin

/-- Claim C9 counterexample.  The claim — every primitive leaf is preserved
verbatim, in particular inside dicts — is false: a primitive value sitting
under a non-basic dict key (here the key `None`) is dropped together with
its entry. -/
theorem C9_counterexample :
    ¬ (∀ (entries : List (PyKey × PyVal)) (k : PyKey) (v : PyVal),
        v.isPrimitive = true → (k, v) ∈ entries → (k, v) ∈ cleanEntries entries) := by
  intro h
  have h2 := h [(PyKey.knone, PyVal.pyint 5)] PyKey.knone (PyVal.pyint 5)
    rfl (List.mem_cons_self _ _)
  rw [cleanEntries] at h2
  rw [if_neg (by decide)] at h2
  rw [cleanEntries] at h2
  cases h2

/-- Claim C9, amended.  `_clean_for_serialization` (a total function in this
embedding): primitive values are returned verbatim and preserved inside
lists and inside dicts *under basic-typed keys* — entries under non-basic
keys are dropped whole; asynchronous runtime objects map to `None`; an
object with a `__dict__` is projected to its cleaned attribute dict; an
object without one is kept as-is when picklable, projected to its `str()`
form otherwise, and to `None` when even that fails. -/
theorem C9_cleaner_behaviour :
    (∀ v : PyVal, v.isPrimitive = true → cleanVal v = v) ∧
    (∀ (entries : List (PyKey × PyVal)) (k : PyKey) (v : PyVal),
      k.isBasic = true → v.isPrimitive = true → (k, v) ∈ entries →
      (k, v) ∈ cleanEntries entries) ∧
    (∀ (k : PyKey) (v : PyVal) (rest : List (PyKey × PyVal)),
      k.isBasic = false → cleanEntries ((k, v) :: rest) = cleanEntries rest) ∧
    (∀ (items : List PyVal) (v : PyVal),
      v.isPrimitive = true → v ∈ items → v ∈ cleanItems items) ∧
    (∀ kind, cleanVal (PyVal.pyasync kind) = PyVal.pynone) ∧
    (∀ (attrs : List (String × PyVal)) (p : Bool) (sf : Option String),
      cleanVal (PyVal.pyobj (some attrs) p sf) = PyVal.pydict (cleanAttrs attrs)) ∧
    (∀ sf, cleanVal (PyVal.pyobj none true sf) = PyVal.pyobj none true sf) ∧
    (∀ t, cleanVal (PyVal.pyobj none false (some t)) = PyVal.pystr t) ∧
    cleanVal (PyVal.pyobj none false none) = PyVal.pynone := by
  refine ⟨fun v hv => cleanVal_primitive hv,
    fun entries k v hkb hv hmem => cleanEntries_preserves hkb hv hmem,
    ?_,
    fun items v hv hmem => cleanItems_preserves hv hmem,
    fun kind => by simp [cleanVal],
    fun attrs p sf => by simp [cleanVal],
    fun sf => by simp [cleanVal],
    fun t => by simp [cleanVal],
    by simp [cleanVal]⟩
  intro k v rest hk
  rw [cleanEntries, if_neg (by simp [hk])]

theorem C9_cleaner_behaviour_witness :
    (PyKey.kstr "current_step", PyVal.pyint 3) ∈
      cleanEntries [(PyKey.kstr "loop", PyVal.pyasync AsyncKind.eventLoop),
                    (PyKey.kstr "current_step", PyVal.pyint 3)] :=
  C9_cleaner_behaviour.2.1
    [(PyKey.kstr "loop", PyVal.pyasync AsyncKind.eventLoop),
     (PyKey.kstr "current_step", PyVal.pyint 3)]
    (PyKey.kstr "current_step") (PyVal.pyint 3) rfl rfl
    (List.mem_cons_of_mem _ (List.mem_cons_self _ _))

/-! ## Claim C10 — idempotence of variable substitution -/

theorem varMapLookup_plain {vars : List (String × String)}
    (h : ∀ p ∈ vars, p.2 ≠ "" ∧ braceFreeL p.2.data = true) :
    PlainValues (varMapLookup vars) := by
  intro k v hkv
  unfold varMapLookup at hkv
  cases hf : vars.reverse.find? (fun p => p.1 == k) with
  | none => rw [hf] at hkv; cases hkv
  | some p =>
      rw [hf] at hkv
      simp only [Option.map_some'] at hkv
      obtain rfl := Option.some.inj hkv
      have hmem : p ∈ vars := List.mem_reverse.mp (List.mem_of_find?_eq_some hf)
      obtain ⟨hne, hbf⟩ := h p hmem
      exact ⟨fun hd => hne (String.ext hd), hbf⟩

/-- The bindings of the counterexample: the value bound to `a` is itself a
placeholder, which a second pass resolves. -/
def c10Binds : List (String × String) := [("a", "\x7b\x7bb\x7d\x7d"), ("b", "c")]

/-- Claim C10 counterexample.  `apply_variables` is not idempotent: with
`t = \x7b\x7ba\x7d\x7d` and bindings `a ↦ \x7b\x7bb\x7d\x7d`, `b ↦ c`, one
application yields `\x7b\x7bb\x7d\x7d` and a second application turns that
into `c`. -/
theorem C10_counterexample :
    replaceVariables (replaceVariables "\x7b\x7ba\x7d\x7d" c10Binds) c10Binds ≠
      replaceVariables "\x7b\x7ba\x7d\x7d" c10Binds := by
  have hm1 : headMatch? ("\x7b\x7ba\x7d\x7d".data) = some (['a'], []) := by decide
  have hlook1 : varMapLookup c10Binds (String.mk ['a']) =
      some "\x7b\x7bb\x7d\x7d" := by decide
  have h1 : replaceVariables "\x7b\x7ba\x7d\x7d" c10Binds = "\x7b\x7bb\x7d\x7d" := by
    unfold replaceVariables
    rw [if_neg (by decide)]
    rw [replVars_match hm1]
    simp only [hlook1]
    rw [replVars_nil]
    decide
  have hm2 : headMatch? ("\x7b\x7bb\x7d\x7d".data) = some (['b'], []) := by decide
  have hlook2 : varMapLookup c10Binds (String.mk ['b']) = some "c" := by decide
  have h2 : replaceVariables "\x7b\x7bb\x7d\x7d" c10Binds = "c" := by
    unfold replaceVariables
    rw [if_neg (by decide)]
    rw [replVars_match hm2]
    simp only [hlook2]
    rw [replVars_nil]
    decide
  rw [h1, h2]
  decide

/-- Claim C10, amended.  Variable substitution is idempotent whenever every
bound value is nonempty and contains no brace characters (so a substituted
value can neither be a placeholder itself nor conspire with its surroundings
to form a new one); without that restriction idempotence fails. -/
theorem C10_substitution_idem (vars : List (String × String)) (t : String)
    (h : ∀ p ∈ vars, p.2 ≠ "" ∧ braceFreeL p.2.data = true) :
    replaceVariables (replaceVariables t vars) vars =
      replaceVariables t vars := by
  by_cases hv : vars.isEmpty
  · unfold replaceVariables
    simp [hv]
  · have HV : PlainValues (varMapLookup vars) := varMapLookup_plain h
    unfold replaceVariables
    simp only [hv, if_false]
    exact congrArg String.mk (replVars_idem HV t.data)

theorem C10_substitution_idem_witness :
    replaceVariables
        (replaceVariables "Hello \x7b\x7bname\x7d\x7d, about \x7b\x7btopic\x7d\x7d"
          [("name", "Bob"), ("topic", "tea")])
        [("name", "Bob"), ("topic", "tea")] =
      replaceVariables "Hello \x7b\x7bname\x7d\x7d, about \x7b\x7btopic\x7d\x7d"
        [("name", "Bob"), ("topic", "tea")] :=
  C10_substitution_idem [("name", "Bob"), ("topic", "tea")]
    "Hello \x7b\x7bname\x7d\x7d, about \x7b\x7btopic\x7d\x7d" (by decide)

end SurveyEase
